import Mathlib

/-!
# Verification of the MCQ review app's data-model operations

Shallow embedding of the two source files of `meetip/streamlit_crud`:

* `json_to_csv.py` — the CSV exporter (`write_csv`, key union, chapter
  fronting, the non-list guard of its `main`);
* `main.py` — the Streamlit review app (`_load_from_json`, `load_data`,
  `save_data`'s sheet payload, chapter filtering, index clamping,
  next/previous navigation, the edit form's record update, the
  checked/unchecked status toggle, and the correct-answer selectbox index).

Records are Python dicts with string keys; values appearing in this program
are strings, ints and `None`.  A dict is embedded as an association list in
insertion order (Python dicts preserve insertion order); `Val` covers the
three value shapes.  Field names follow the spec's canonical English names
(`prompt`, `option_a`, ‥, `correct_answer`, `explanation`, `merge_note`) which
stand for the source's Thai key strings; the chapter key is the source's
literal `"Chapter"`.
-/

/-- A JSON/dict value as this program uses them: text, integer, or `None`. -/
inductive Val where
  | str (s : String)
  | int (n : Int)
  | null
deriving DecidableEq, Repr

/-- One record: a Python dict embedded as an insertion-ordered association
list of field name and value. -/
abbrev Record : Type := List (String × Val)

/-- `r.get(k)` / `r[k]` lookup: the value stored under `k`, `none` when the
key is absent (an explicitly stored `None` is `some Val.null`, distinct from
an absent key, exactly as in a Python dict). -/
def lookupField : Record → String → Option Val
  | [], _ => none
  | (k', v) :: rest, k => if k' = k then some v else lookupField rest k

/-- `r[k] = v` dict assignment: replaces the value in place when the key
exists (keeping its position), appends the pair otherwise — Python dict
update order semantics. -/
def setField : Record → String → Val → Record
  | [], k, v => [(k, v)]
  | (k', v') :: rest, k, v =>
      if k' = k then (k, v) :: rest else (k', v') :: setField rest k v

/-- `r.keys()` in insertion order. -/
def recordKeys (r : Record) : List String := (r : List (String × Val)).map Prod.fst

/-- One step of the exporter's key union (`json_to_csv.py` lines 26–29 and
`main.py` lines 190–193): `if k not in keys: keys.append(k)`. -/
def insKey (ks : List String) (k : String) : List String :=
  if k ∈ ks then ks else ks ++ [k]

/-- The key-union loop shared by `write_csv` (`json_to_csv.py` lines 25–29)
and `save_data` (`main.py` lines 189–193): scan records front-to-back and
append each not-yet-seen key. -/
def collectKeys (records : List Record) : List String :=
  records.foldl (fun ks r => (recordKeys r).foldl insKey ks) []

/-- `write_csv`'s field-name list (`json_to_csv.py` lines 23–34): the key
union, then `keys.remove('Chapter'); keys.insert(0, 'Chapter')` when
`'Chapter'` occurs (`List.erase` removes the first occurrence exactly as
Python's `list.remove`). -/
def computeFieldSet (records : List Record) : List String :=
  if "Chapter" ∈ collectKeys records then
    "Chapter" :: (collectKeys records).erase "Chapter"
  else collectKeys records

/-- Modelled from the spec's words (§4.2): the union of field names "in
first-seen order scanning records front-to-back" — keep the first occurrence
of each name in the flattened key stream. Used only to compare the source's
`computeFieldSet` against the spec's description. -/
def firstSeen : List String → List String
  | [] => []
  | k :: rest => k :: firstSeen (rest.filter (fun a => decide (a ≠ k)))
termination_by l => l.length
decreasing_by
  simp only [List.length_cons]
  exact Nat.lt_succ_of_le (List.length_filter_le _ _)

/-- Modelled from the spec's words (§4.2 `computeFieldSet`): first-seen union,
then move `chapter` (the source's `"Chapter"` key) to index 0. -/
def specFieldSet (records : List Record) : List String :=
  if "Chapter" ∈ firstSeen (records.flatMap recordKeys) then
    "Chapter" :: (firstSeen (records.flatMap recordKeys)).erase "Chapter"
  else firstSeen (records.flatMap recordKeys)

theorem mem_insKey {a k : String} {ks : List String} :
    a ∈ insKey ks k ↔ a ∈ ks ∨ a = k := by
  unfold insKey
  split
  · constructor
    · exact Or.inl
    · rintro (h | rfl)
      · exact h
      · assumption
  · simp [List.mem_append]

theorem nodup_insKey {ks : List String} (h : ks.Nodup) (k : String) :
    (insKey ks k).Nodup := by
  unfold insKey
  split
  · exact h
  · simp [List.nodup_append, h, *]

theorem mem_foldl_insKey (l : List String) :
    ∀ ks a, a ∈ l.foldl insKey ks ↔ a ∈ ks ∨ a ∈ l := by
  induction l with
  | nil => simp
  | cons k rest ih =>
      intro ks a
      rw [List.foldl_cons, ih, mem_insKey]
      simp [or_assoc]

theorem nodup_foldl_insKey (l : List String) :
    ∀ ks, ks.Nodup → (l.foldl insKey ks).Nodup := by
  induction l with
  | nil => intro ks h; exact h
  | cons k rest ih =>
      intro ks h
      exact ih _ (nodup_insKey h k)

theorem mem_collectKeys_aux (records : List Record) :
    ∀ ks a, a ∈ records.foldl (fun ks r => (recordKeys r).foldl insKey ks) ks ↔
      a ∈ ks ∨ ∃ r ∈ records, a ∈ recordKeys r := by
  induction records with
  | nil => simp
  | cons r rest ih =>
      intro ks a
      rw [List.foldl_cons, ih, mem_foldl_insKey]
      simp [or_assoc]

theorem mem_collectKeys (records : List Record) (a : String) :
    a ∈ collectKeys records ↔ ∃ r ∈ records, a ∈ recordKeys r := by
  rw [collectKeys, mem_collectKeys_aux]
  simp

theorem nodup_collectKeys_aux (records : List Record) :
    ∀ ks : List String, ks.Nodup →
      (records.foldl (fun ks r => (recordKeys r).foldl insKey ks) ks).Nodup := by
  induction records with
  | nil => intro ks h; exact h
  | cons r rest ih => intro ks h; exact ih _ (nodup_foldl_insKey _ _ h)

theorem nodup_collectKeys (records : List Record) : (collectKeys records).Nodup :=
  nodup_collectKeys_aux records [] List.nodup_nil

theorem foldl_insKey_eq (l : List String) :
    ∀ ks, l.foldl insKey ks = ks ++ firstSeen (l.filter (fun a => decide (a ∉ ks))) := by
  induction l with
  | nil => intro ks; simp [firstSeen]
  | cons k rest ih =>
      intro ks
      rw [List.foldl_cons]
      by_cases hk : k ∈ ks
      · have h1 : insKey ks k = ks := by unfold insKey; rw [if_pos hk]
        rw [h1, ih]
        congr 2
        rw [List.filter_cons]
        simp [hk]
      · have h1 : insKey ks k = ks ++ [k] := by unfold insKey; rw [if_neg hk]
        rw [h1, ih, List.filter_cons]
        have hkeep : decide (k ∉ ks) = true := by simp [hk]
        rw [if_pos hkeep]
        rw [show firstSeen (k :: List.filter (fun a => decide (a ∉ ks)) rest)
              = k :: firstSeen ((List.filter (fun a => decide (a ∉ ks)) rest).filter
                  (fun a => decide (a ≠ k))) from by rw [firstSeen]]
        rw [List.append_assoc, List.filter_filter]
        congr 1
        show k :: firstSeen _ = k :: firstSeen _
        congr 2
        apply List.filter_congr
        intro x _
        simp [List.mem_append, not_or, and_comm]

theorem collectKeys_eq_foldl_flat (records : List Record) :
    ∀ ks, records.foldl (fun ks r => (recordKeys r).foldl insKey ks) ks
      = (records.flatMap recordKeys).foldl insKey ks := by
  induction records with
  | nil => intro ks; rfl
  | cons r rest ih =>
      intro ks
      rw [List.foldl_cons, ih, List.flatMap_cons, List.foldl_append]

theorem collectKeys_eq_firstSeen (records : List Record) :
    collectKeys records = firstSeen (records.flatMap recordKeys) := by
  rw [collectKeys, collectKeys_eq_foldl_flat, foldl_insKey_eq]
  simp

/-- C1: for every record collection, `computeFieldSet` (the exporter's key
union, `json_to_csv.py` lines 23–34) returns the field names in first-seen
order scanning records front-to-back (it equals the spec-side `specFieldSet`),
never contains a duplicate name, places the chapter field (`"Chapter"`) at
index 0 iff some record has that field, and preserves the relative order of
all other names. -/
theorem computeFieldSet_correct (records : List Record) :
    computeFieldSet records = specFieldSet records
    ∧ (computeFieldSet records).Nodup
    ∧ (∀ k, k ∈ computeFieldSet records ↔ ∃ r ∈ records, k ∈ recordKeys r)
    ∧ ((computeFieldSet records).head? = some "Chapter" ↔
        ∃ r ∈ records, "Chapter" ∈ recordKeys r)
    ∧ (computeFieldSet records).erase "Chapter" = (collectKeys records).erase "Chapter" := by
  have hnd := nodup_collectKeys records
  refine ⟨?_, ?_, ?_, ?_, ?_⟩
  · simp only [computeFieldSet, specFieldSet, collectKeys_eq_firstSeen]
  · unfold computeFieldSet
    split
    · exact List.Nodup.cons (fun h => absurd (hnd.mem_erase_iff.mp h).1 (by simp))
        (hnd.erase "Chapter")
    · exact hnd
  · intro k
    rw [← mem_collectKeys]
    unfold computeFieldSet
    split
    · rename_i hch
      constructor
      · intro h
        rcases List.mem_cons.mp h with rfl | h
        · exact hch
        · exact List.mem_of_mem_erase h
      · intro h
        by_cases hk : k = "Chapter"
        · exact hk ▸ List.mem_cons_self _ _
        · exact List.mem_cons_of_mem _ ((List.mem_erase_of_ne hk).mpr h)
    · exact Iff.rfl
  · rw [← show ("Chapter" ∈ collectKeys records) ↔ ∃ r ∈ records, "Chapter" ∈ recordKeys r
        from mem_collectKeys records "Chapter"]
    unfold computeFieldSet
    split
    · rename_i hch
      simp [hch]
    · rename_i hch
      constructor
      · intro h
        exact absurd (List.mem_of_mem_head? (h ▸ rfl)) hch
      · intro h
        exact absurd h hch
  · unfold computeFieldSet
    split
    · exact List.erase_cons_head _ _
    · rfl

/-- One CSV cell of `write_csv` (`json_to_csv.py` line 42):
`'' if r.get(k) is None else r.get(k)` — an absent key and a stored `None`
both render as the empty string; the csv writer stringifies ints. -/
def csvCell (r : Record) (k : String) : String :=
  match lookupField r k with
  | none => ""
  | some Val.null => ""
  | some (Val.str s) => s
  | some (Val.int n) => toString n

/-- `write_csv` (`json_to_csv.py` lines 23–43) as header row plus data rows
(the `DictWriter` writes `fieldnames` then, per record, the cells of those
field names in order). -/
def write_csv (records : List Record) : List String × List (List String) :=
  (computeFieldSet records,
   records.map (fun r => (computeFieldSet records).map (csvCell r)))

/-- The spec's export scenario, §8: records
`[{chapter:1, prompt:"A?"}, {chapter:2, prompt:"B?", note:"x"}]`
(the chapter field is the source's `"Chapter"` key). -/
def exportScenario : List Record :=
  [[("Chapter", Val.int 1), ("prompt", Val.str "A?")],
   [("Chapter", Val.int 2), ("prompt", Val.str "B?"), ("note", Val.str "x")]]

/-- C4: `export` writes one header row equal to the Field Set followed by
exactly one data row per record in original order, rendering `null`/absent
fields as the empty string; on the spec's scenario the header is
`["Chapter","prompt","note"]`, the first data row's note cell is `""` and the
second data row is `["2","B?","x"]`. -/
theorem write_csv_correct (records : List Record) :
    (write_csv records).1 = computeFieldSet records
    ∧ (write_csv records).2.length = records.length
    ∧ (write_csv records).2 =
        records.map (fun r => (computeFieldSet records).map (csvCell r))
    ∧ (∀ r k, lookupField r k = none ∨ lookupField r k = some Val.null →
        csvCell r k = "")
    ∧ write_csv exportScenario =
        (["Chapter", "prompt", "note"], [["1", "A?", ""], ["2", "B?", "x"]]) := by
  refine ⟨rfl, by simp [write_csv], rfl, ?_, by decide⟩
  intro r k h
  rcases h with h | h <;> simp [csvCell, h]

/-- `save_data`'s header keys (`main.py` lines 189–193): the same
first-seen key-union loop as the exporter — but with no chapter fronting. -/
def saveKeys (data : List Record) : List String := collectKeys data

/-- One sheet cell of `save_data` (`main.py` lines 198–199):
`item.get(k, '') if item.get(k, '') is not None else ''`. -/
def saveCell (item : Record) (k : String) : Val :=
  if (lookupField item k).getD (Val.str "") = Val.null then Val.str ""
  else (lookupField item k).getD (Val.str "")

/-- The rows `save_data` sends to the sheet (`main.py` lines 184–203):
an empty collection just clears the sheet (no header row); otherwise the
header row (the key union) followed by one row per record. -/
def sheetPayload (data : List Record) : List (List Val) :=
  if data.isEmpty then []
  else (saveKeys data).map Val.str ::
    data.map (fun item => (saveKeys data).map (saveCell item))

theorem mem_computeFieldSet (records : List Record) (k : String) :
    k ∈ computeFieldSet records ↔ k ∈ collectKeys records := by
  unfold computeFieldSet
  split
  · rename_i hch
    constructor
    · intro h
      rcases List.mem_cons.mp h with rfl | h
      · exact hch
      · exact List.mem_of_mem_erase h
    · intro h
      by_cases hk : k = "Chapter"
      · exact hk ▸ List.mem_cons_self _ _
      · exact List.mem_cons_of_mem _ ((List.mem_erase_of_ne hk).mpr h)
  · exact Iff.rfl

/-- C2 (amended): for a non-empty collection, `save_data` sends a header row
holding the first-seen key union — in first-seen order, WITHOUT moving the
chapter field to the front — followed by exactly one row per record in order,
rendering missing and `None` values as the empty string; every field of every
record appears in the header (same membership as the exporter's Field Set),
so a re-load after save loses no column. -/
theorem sheetPayload_correct (data : List Record) (hne : data ≠ []) :
    sheetPayload data = (saveKeys data).map Val.str ::
        data.map (fun item => (saveKeys data).map (saveCell item))
    ∧ (sheetPayload data).length = data.length + 1
    ∧ (∀ item ∈ data, ∀ k ∈ recordKeys item, k ∈ saveKeys data)
    ∧ (∀ k, k ∈ saveKeys data ↔ k ∈ computeFieldSet data)
    ∧ (∀ item k, lookupField item k = none ∨ lookupField item k = some Val.null →
        saveCell item k = Val.str "")
    ∧ (∀ row ∈ sheetPayload data, row.length = (saveKeys data).length) := by
  have hne' : ¬ data.isEmpty = true := by
    cases data with
    | nil => exact absurd rfl hne
    | cons a l => simp [List.isEmpty]
  have h0 : sheetPayload data = (saveKeys data).map Val.str ::
      data.map (fun item => (saveKeys data).map (saveCell item)) := by
    unfold sheetPayload
    rw [if_neg hne']
  refine ⟨h0, ?_, ?_, ?_, ?_, ?_⟩
  · rw [h0]; simp
  · intro item hitem k hk
    exact (mem_collectKeys data k).mpr ⟨item, hitem, hk⟩
  · intro k
    rw [mem_computeFieldSet]
    exact Iff.rfl
  · intro item k h
    rcases h with h | h <;> simp [saveCell, h]
  · intro row hrow
    rw [h0] at hrow
    rcases List.mem_cons.mp hrow with rfl | hrow
    · simp
    · rcases List.mem_map.mp hrow with ⟨item, _, rfl⟩
      simp

/-- A collection whose first record lacks the chapter field: the spec's
Field Set puts `"Chapter"` first, but `save_data`'s header keeps first-seen
order. -/
def mixedData : List Record :=
  [[("prompt", Val.str "x")], [("Chapter", Val.int 1)]]

/-- C2 counterexample: on `mixedData` the header row `save_data` writes is
`["prompt", "Chapter"]`, which is not the Field Set order
`["Chapter", "prompt"]` (chapter is not forced to the front). -/
theorem sheetPayload_cex :
    (sheetPayload mixedData).head? = some [Val.str "prompt", Val.str "Chapter"]
    ∧ computeFieldSet mixedData = ["Chapter", "prompt"]
    ∧ (sheetPayload mixedData).head? ≠
        some ((computeFieldSet mixedData).map Val.str) := by decide

/-- C2 witness: the amended save contract evaluated on a concrete one-record
collection. -/
theorem sheetPayload_correct_witness :
    (sheetPayload [[(("Chapter" : String), Val.int 1)]]).length = 1 + 1 :=
  (sheetPayload_correct [[(("Chapter" : String), Val.int 1)]] (by decide)).2.1

/-- The chapter filter (`main.py` lines 253–254):
`[q for q in questions if q['Chapter'] == selected_chapter]`.  (The main flow
reaches this line only after `q['Chapter']` succeeded for every record, so
key presence is embedded as the lookup returning the chapter value.) -/
def filterChapter (questions : List Record) (ch : Val) : List Record :=
  questions.filter (fun q => decide (lookupField q "Chapter" = some ch))

/-- What happens to `current_index` when a chapter is selected and the app
reruns (`main.py` lines 296–301): the session index persists, and is reset to
0 only by the bounds check
`if st.session_state.current_index >= len(chapter_questions)`. -/
def selectChapter (questions : List Record) (idx : Nat) (ch : Val) : Nat :=
  if (filterChapter questions ch).length ≤ idx then 0 else idx

/-- The Next button (`main.py` lines 317–319): increment only while
`current_index < total_questions - 1`. -/
def nextIndex (idx total : Nat) : Nat :=
  if idx < total - 1 then idx + 1 else idx

/-- The Previous button (`main.py` lines 310–312): decrement only while
`current_index > 0`. -/
def prevIndex (idx : Nat) : Nat :=
  if 0 < idx then idx - 1 else idx

/-- A four-question collection spanning chapters 1 and 2. -/
def chapterQs : List Record :=
  [[("Chapter", Val.int 1), ("prompt", Val.str "q1")],
   [("Chapter", Val.int 1), ("prompt", Val.str "q2")],
   [("Chapter", Val.int 2), ("prompt", Val.str "q3")],
   [("Chapter", Val.int 2), ("prompt", Val.str "q4")]]

/-- C5 counterexample: at `current_index = 1` inside chapter 1, selecting
chapter 2 (which also has 2 questions) leaves the index at 1 — the session
shows the second question of the new chapter, not the first, so a chapter
switch does NOT always reset `current_index` to 0. -/
theorem selectChapter_cex :
    selectChapter chapterQs 1 (Val.int 2) = 1 ∧ (1 : Nat) ≠ 0 := by decide

/-- C5 (amended): selecting a chapter preserves `current_index` whenever it
is still within the bounds of the newly filtered subsequence, and resets it
to 0 exactly when it is out of bounds; it never produces any other value. -/
theorem selectChapter_clamps (questions : List Record) (idx : Nat) (ch : Val) :
    (idx < (filterChapter questions ch).length → selectChapter questions idx ch = idx)
    ∧ ((filterChapter questions ch).length ≤ idx → selectChapter questions idx ch = 0)
    ∧ (selectChapter questions idx ch = 0 ∨ selectChapter questions idx ch = idx) := by
  unfold selectChapter
  refine ⟨fun h => ?_, fun h => ?_, ?_⟩
  · rw [if_neg (by omega)]
  · rw [if_pos h]
  · split
    · exact Or.inl rfl
    · exact Or.inr rfl

/-- C6: within a non-empty chapter-filtered subsequence, `previous()` at
index 0 and `next()` at the last index are no-ops; elsewhere they move the
index by exactly one; and both always keep the index inside
`[0, len - 1]`. -/
theorem navButtons_correct (len idx : Nat) (hlen : 0 < len) (hidx : idx < len) :
    prevIndex 0 = 0
    ∧ nextIndex (len - 1) len = len - 1
    ∧ (0 < idx → prevIndex idx = idx - 1)
    ∧ (idx < len - 1 → nextIndex idx len = idx + 1)
    ∧ prevIndex idx < len
    ∧ nextIndex idx len < len := by
  unfold prevIndex nextIndex
  refine ⟨rfl, ?_, fun h => ?_, fun h => ?_, ?_, ?_⟩
  · rw [if_neg (by omega)]
  · rw [if_pos h]
  · rw [if_pos h]
  · split <;> omega
  · split <;> omega

/-- C6 witness: the navigation bounds at a concrete subsequence of length 3,
index 1. -/
theorem navButtons_correct_witness :
    prevIndex 0 = 0
    ∧ nextIndex 2 3 = 2
    ∧ (0 < 1 → prevIndex 1 = 0)
    ∧ (1 < 2 → nextIndex 1 3 = 2)
    ∧ prevIndex 1 < 3
    ∧ nextIndex 1 3 < 3 :=
  navButtons_correct 3 1 (by decide) (by decide)

theorem lookupField_setField_self (r : Record) (k : String) (v : Val) :
    lookupField (setField r k v) k = some v := by
  induction r with
  | nil => simp [setField, lookupField]
  | cons kv rest ih =>
      obtain ⟨k1, v1⟩ := kv
      by_cases h1 : k1 = k
      · simp [setField, lookupField, h1]
      · simp [setField, lookupField, h1]
        exact ih

theorem lookupField_setField_ne (r : Record) (k k' : String) (v : Val)
    (h : k' ≠ k) :
    lookupField (setField r k v) k' = lookupField r k' := by
  induction r with
  | nil => simp [setField, lookupField, Ne.symm h]
  | cons kv rest ih =>
      obtain ⟨k1, v1⟩ := kv
      by_cases h1 : k1 = k
      · simp [setField, lookupField, h1, Ne.symm h]
      · by_cases h2 : k1 = k'
        · simp [setField, lookupField, h1, h2, h]
        · simp [setField, lookupField, h1, h2]
          exact ih

theorem setField_setField (r : Record) (k : String) (v w : Val) :
    setField (setField r k v) k w = setField r k w := by
  induction r with
  | nil => simp [setField]
  | cons kv rest ih =>
      obtain ⟨k1, v1⟩ := kv
      by_cases h1 : k1 = k
      · simp [setField, h1]
      · simp [setField, h1]
        exact ih

theorem setField_of_lookupField (r : Record) (k : String) (v : Val)
    (h : lookupField r k = some v) : setField r k v = r := by
  induction r with
  | nil => simp [lookupField] at h
  | cons kv rest ih =>
      obtain ⟨k1, v1⟩ := kv
      by_cases h1 : k1 = k
      · simp [lookupField, h1] at h
        simp [setField, h1, h]
      · simp [lookupField, h1] at h
        simp [setField, h1]
        exact ih h

/-- The status toggle on one record (`main.py` lines 426 and 433):
`questions[original_index]['status'] = 'checked'` respectively
`= 'unchecked'`. -/
def setStatusRec (r : Record) (checked : Bool) : Record :=
  setField r "status" (Val.str (if checked then "checked" else "unchecked"))

/-- The status toggle applied at a collection position (out-of-range is a
no-op; the UI only reaches it with a valid position). -/
def setStatusAt (qs : List Record) (i : Nat) (checked : Bool) : List Record :=
  match qs[i]? with
  | some q => qs.set i (setStatusRec q checked)
  | none => qs

/-- C8 counterexample: a record with no explicit `status` field.  After
`setStatus(true)` then `setStatus(false)` it carries `status = "unchecked"`
as a new key, so the pre-toggle record (where the key was absent) is NOT
restored exactly — not even up to Python dict equality, since the looked-up
`status` value differs. -/
theorem setStatus_cex :
    setStatusRec (setStatusRec [(("Chapter" : String), Val.int 1)] true) false
      ≠ [(("Chapter" : String), Val.int 1)]
    ∧ lookupField
        (setStatusRec (setStatusRec [(("Chapter" : String), Val.int 1)] true) false)
        "status"
      ≠ lookupField [(("Chapter" : String), Val.int 1)] "status" := by decide

/-- C8 (amended): `setStatus(true)` then `setStatus(false)` on the record at
position `i` leaves every other record untouched, leaves every other field of
that record untouched, and ends with explicit `status = "unchecked"`; the
pre-toggle record is restored exactly when it already carried the explicit
value `status = "unchecked"` (for a record without a `status` field the
toggle instead appends that semantically-default value). -/
theorem setStatus_toggle (qs : List Record) (i : Nat) (r : Record)
    (h : qs[i]? = some r) :
    setStatusAt (setStatusAt qs i true) i false =
        qs.set i (setStatusRec (setStatusRec r true) false)
    ∧ (∀ j, j ≠ i → (setStatusAt (setStatusAt qs i true) i false)[j]? = qs[j]?)
    ∧ lookupField (setStatusRec (setStatusRec r true) false) "status" =
        some (Val.str "unchecked")
    ∧ (∀ k, k ≠ "status" →
        lookupField (setStatusRec (setStatusRec r true) false) k = lookupField r k)
    ∧ (lookupField r "status" = some (Val.str "unchecked") →
        setStatusRec (setStatusRec r true) false = r) := by
  have hlt : i < qs.length := by
    by_contra hc
    rw [List.getElem?_eq_none_iff.mpr (by omega)] at h
    cases h
  have e1 : setStatusAt qs i true = qs.set i (setStatusRec r true) := by
    unfold setStatusAt
    rw [h]
  have e2 : (qs.set i (setStatusRec r true))[i]? = some (setStatusRec r true) :=
    List.getElem?_set_self (by simpa using hlt)
  have e3 : setStatusAt (qs.set i (setStatusRec r true)) i false =
      (qs.set i (setStatusRec r true)).set i (setStatusRec (setStatusRec r true) false) := by
    unfold setStatusAt
    rw [e2]
  refine ⟨?_, ?_, ?_, ?_, ?_⟩
  · rw [e1, e3, List.set_set]
  · intro j hj
    rw [e1, e3, List.set_set, List.getElem?_set_ne (Ne.symm hj)]
  · unfold setStatusRec
    exact lookupField_setField_self _ _ _
  · intro k hk
    unfold setStatusRec
    rw [lookupField_setField_ne _ _ _ _ hk, lookupField_setField_ne _ _ _ _ hk]
  · intro hst
    unfold setStatusRec
    rw [setField_setField]
    exact setField_of_lookupField _ _ _ hst

/-- C8 witness: the toggle contract evaluated on a concrete one-record
collection. -/
theorem setStatus_toggle_witness :
    setStatusAt (setStatusAt [[(("prompt" : String), Val.str "p")]] 0 true) 0 false =
      [[(("prompt" : String), Val.str "p")]].set 0
        (setStatusRec (setStatusRec [(("prompt" : String), Val.str "p")] true) false) :=
  (setStatus_toggle [[(("prompt" : String), Val.str "p")]] 0
    [(("prompt" : String), Val.str "p")] (by decide)).1

/-- The edit form's field values (`main.py` lines 348–372).  The English
names stand for the form's Thai labels/keys: `topic`, `prompt`,
`option_a`–`option_d`, `correct_answer`, `explanation`, and `merge_note`
(the text input whose empty value is stored as `None`). -/
structure EditForm where
  topic : String
  prompt : String
  optionA : String
  optionB : String
  optionC : String
  optionD : String
  correct : String
  explanation : String
  mergeNote : String
deriving DecidableEq, Repr

/-- The nine assignments of the Save-Changes branch (`main.py` lines
384–392), in source order; the last one stores `None` when the supplied
merge note is empty (`x if x else None`). -/
def applyEdit (r : Record) (f : EditForm) : Record :=
  setField (setField (setField (setField (setField (setField (setField (setField (setField
    r "topic" (Val.str f.topic))
    "prompt" (Val.str f.prompt))
    "option_a" (Val.str f.optionA))
    "option_b" (Val.str f.optionB))
    "option_c" (Val.str f.optionC))
    "option_d" (Val.str f.optionD))
    "correct_answer" (Val.str f.correct))
    "explanation" (Val.str f.explanation))
    "merge_note" (if f.mergeNote = "" then Val.null else Val.str f.mergeNote)

/-- Python dict equality (`==`) in terms of lookups: both dicts agree on
every key either of them has (key order is irrelevant, exactly as for
Python dicts). -/
def recPyEq (r s : Record) : Bool :=
  (recordKeys r ++ recordKeys s).all
    (fun k => decide (lookupField r k = lookupField s k))

/-- Python's `questions.index(current_q)` (`main.py` line 305): the index of
the FIRST element of the list that compares `==` to `current_q`
(`ValueError`, i.e. `none`, when no element does). -/
def pyIndex (qs : List Record) (cur : Record) : Option Nat :=
  match qs with
  | [] => none
  | q :: rest => if recPyEq q cur then some 0 else (pyIndex rest cur).map (· + 1)

/-- The Save-Changes transition (`main.py` lines 303–305 and 382–394): take
the displayed record `chapter_questions[current_index]`, find
`original_index = questions.index(current_q)` (first `==` match), and write
the form's field values onto `questions[original_index]`. -/
def confirmEdits (questions : List Record) (ch : Val) (idx : Nat)
    (f : EditForm) : List Record :=
  match (filterChapter questions ch)[idx]? with
  | none => questions
  | some cur =>
    match pyIndex questions cur with
    | none => questions
    | some oi => questions.set oi (applyEdit (questions[oi]?.getD cur) f)

/-- The original-collection position of the record displayed at `idx` within
the chapter filter: the position in `questions` of the `idx`-th record whose
chapter matches (this is what object identity singles out in Python, since
the filtered list holds references). -/
def origPos (questions : List Record) (ch : Val) (idx : Nat) : Option Nat :=
  match questions with
  | [] => none
  | q :: rest =>
    if lookupField q "Chapter" = some ch then
      match idx with
      | 0 => some 0
      | i + 1 => (origPos rest ch i).map (· + 1)
    else (origPos rest ch idx).map (· + 1)

theorem recPyEq_refl (r : Record) : recPyEq r r = true := by
  unfold recPyEq
  rw [List.all_eq_true]
  intro k _
  simp

theorem lt_of_getElem?_some {α : Type} {l : List α} {i : Nat} {a : α}
    (h : l[i]? = some a) : i < l.length := by
  by_contra hc
  rw [List.getElem?_eq_none_iff.mpr (by omega)] at h
  cases h

theorem origPos_spec (questions : List Record) (ch : Val) :
    ∀ idx cur, (filterChapter questions ch)[idx]? = some cur →
      ∃ pos, origPos questions ch idx = some pos ∧ questions[pos]? = some cur := by
  induction questions with
  | nil => intro idx cur h; simp [filterChapter] at h
  | cons q rest ih =>
      intro idx cur h
      rw [filterChapter, List.filter_cons] at h
      by_cases hq : lookupField q "Chapter" = some ch
      · rw [if_pos (by simpa using hq)] at h
        cases idx with
        | zero =>
            rw [List.getElem?_cons_zero] at h
            refine ⟨0, ?_, by simpa using h⟩
            unfold origPos
            rw [if_pos hq]
        | succ i =>
            rw [List.getElem?_cons_succ] at h
            obtain ⟨pos, h1, h2⟩ := ih i cur h
            refine ⟨pos + 1, ?_, by simpa using h2⟩
            unfold origPos
            rw [if_pos hq]
            show Option.map (fun x => x + 1) (origPos rest ch i) = some (pos + 1)
            rw [h1]
            rfl
      · rw [if_neg (by simpa using hq)] at h
        obtain ⟨pos, h1, h2⟩ := ih idx cur h
        refine ⟨pos + 1, ?_, by simpa using h2⟩
        unfold origPos
        rw [if_neg hq, h1]
        rfl

theorem pyIndex_eq_first (qs : List Record) (cur : Record) :
    ∀ i, qs[i]? = some cur →
      (∀ j, j < i → ∀ b, qs[j]? = some b → recPyEq b cur = false) →
      pyIndex qs cur = some i := by
  induction qs with
  | nil => intro i h _; simp at h
  | cons q rest ih =>
      intro i h hfirst
      cases i with
      | zero =>
          rw [List.getElem?_cons_zero] at h
          obtain rfl := Option.some.inj h
          unfold pyIndex
          rw [if_pos (recPyEq_refl q)]
      | succ i =>
          have hq : recPyEq q cur = false :=
            hfirst 0 (Nat.succ_pos i) q (by simp)
          unfold pyIndex
          rw [if_neg (by simp [hq])]
          rw [List.getElem?_cons_succ] at h
          rw [ih i h (fun j hj b hb =>
            hfirst (j + 1) (by omega) b (by rwa [List.getElem?_cons_succ]))]
          rfl

/-- C7 (amended): `confirmEdits` rewrites exactly the record at the position
of the FIRST record of the collection that compares `==` to the displayed
record (`questions.index(current_q)` semantics); every other position is
unchanged; and whenever the collection holds no two `==`-equal records, that
position is exactly the original-collection position of the displayed
record. -/
theorem confirmEdits_frame (questions : List Record) (ch : Val) (idx : Nat)
    (f : EditForm) (cur : Record)
    (hcur : (filterChapter questions ch)[idx]? = some cur)
    (oi : Nat) (hoi : pyIndex questions cur = some oi) :
    confirmEdits questions ch idx f =
        questions.set oi (applyEdit (questions[oi]?.getD cur) f)
    ∧ (∀ j, j ≠ oi → (confirmEdits questions ch idx f)[j]? = questions[j]?)
    ∧ (questions.Pairwise (fun a b => recPyEq a b = false) →
        origPos questions ch idx = some oi) := by
  have h0 : confirmEdits questions ch idx f =
      questions.set oi (applyEdit (questions[oi]?.getD cur) f) := by
    unfold confirmEdits
    rw [hcur]
    show (match pyIndex questions cur with
      | none => questions
      | some oi => questions.set oi (applyEdit (questions[oi]?.getD cur) f)) =
      questions.set oi (applyEdit (questions[oi]?.getD cur) f)
    rw [hoi]
  refine ⟨h0, ?_, ?_⟩
  · intro j hj
    rw [h0, List.getElem?_set_ne (Ne.symm hj)]
  · intro hpw
    obtain ⟨pos, hpos, hq⟩ := origPos_spec questions ch idx cur hcur
    have hlt : pos < questions.length := lt_of_getElem?_some hq
    have hfirst : ∀ j, j < pos → ∀ b, questions[j]? = some b →
        recPyEq b cur = false := by
      intro j hj b hb
      have hjlt : j < questions.length := lt_of_getElem?_some hb
      have hpair := List.pairwise_iff_getElem.mp hpw j pos hjlt hlt hj
      rw [List.getElem?_eq_getElem hjlt] at hb
      rw [List.getElem?_eq_getElem hlt] at hq
      obtain rfl := Option.some.inj hb
      rw [Option.some.inj hq] at hpair
      exact hpair
    have hpy := pyIndex_eq_first questions cur pos hq hfirst
    rw [hoi] at hpy
    rw [hpos, Option.some.inj hpy]

/-- A record duplicated (as a value) at positions 0 and 1 of the collection,
both inside chapter 1. -/
def dupRecord : Record := [("Chapter", Val.int 1), ("prompt", Val.str "same")]

/-- A collection holding two `==`-equal records. -/
def dupQuestions : List Record := [dupRecord, dupRecord]

/-- A concrete edit-form submission. -/
def editSample : EditForm :=
  ⟨"t", "edited", "a", "b", "c", "d", "A", "e", ""⟩

/-- C7 counterexample: display the SECOND of two duplicate records
(`current_index = 1` inside chapter 1, original position 1) and save an
edit.  The record at the displayed record's original position 1 is left
unchanged while position 0 — a different entry — is rewritten:
`confirmEdits` does not target the displayed record's position. -/
theorem confirmEdits_cex :
    origPos dupQuestions (Val.int 1) 1 = some 1
    ∧ (confirmEdits dupQuestions (Val.int 1) 1 editSample)[1]? = some dupRecord
    ∧ (confirmEdits dupQuestions (Val.int 1) 1 editSample)[0]? ≠ some dupRecord := by
  decide

/-- C7 witness: the amended update contract evaluated on a concrete
one-record collection. -/
theorem confirmEdits_frame_witness :
    confirmEdits [[(("Chapter" : String), Val.int 1)]] (Val.int 1) 0 editSample =
      [[(("Chapter" : String), Val.int 1)]].set 0
        (applyEdit (([[(("Chapter" : String), Val.int 1)]][0]?).getD
          [(("Chapter" : String), Val.int 1)]) editSample) :=
  (confirmEdits_frame [[(("Chapter" : String), Val.int 1)]] (Val.int 1) 0 editSample
    [(("Chapter" : String), Val.int 1)] (by decide) 0 (by decide)).1

/-- The selectbox's option list (`main.py` line 365): the four recognized
answer letters. -/
def answerLetters : List String := ["A", "B", "C", "D"]

/-- Python's `['A','B','C','D'].index(v)` (`main.py` line 366): the index of
the first option comparing `==` to `v`; `none` embeds the `ValueError` the
call raises when no option matches. -/
def listIndex (l : List String) (v : Val) : Option Nat :=
  match l with
  | [] => none
  | a :: rest => if Val.str a = v then some 0 else (listIndex rest v).map (· + 1)

/-- `main.py` lines 365–366: the selectbox index is computed from
`current_q.get('correct_answer', 'A')` — the `'A'` default applies only when
the key is absent, not when its value is unrecognized. -/
def answerIndex (r : Record) : Option Nat :=
  listIndex answerLetters ((lookupField r "correct_answer").getD (Val.str "A"))

/-- The letter the UI preselects: the option at the computed index (`none`
when the index computation raised). -/
def selectedAnswer (r : Record) : Option String :=
  (answerIndex r).bind (fun i => answerLetters[i]?)

/-- C9 counterexample: a record whose `correct_answer` holds the unrecognized
letter `"E"`.  The index lookup raises (`none`) instead of defaulting to the
first letter, so the operation is not total on unrecognized values. -/
theorem answerDefault_cex :
    answerIndex [(("correct_answer" : String), Val.str "E")] = none
    ∧ selectedAnswer [(("correct_answer" : String), Val.str "E")] = none
    ∧ selectedAnswer [(("correct_answer" : String), Val.str "E")] ≠ some "A" := by
  decide

/-- C9 (amended): the UI defaults the answer selection to `"A"` only when
`correct_answer` is ABSENT; a recognized stored letter is preselected as
itself; but a present unrecognized value (including a stored `None`) makes
the index lookup raise — it does not fall back to the first letter. -/
theorem answerDefault (r : Record) :
    (lookupField r "correct_answer" = none → selectedAnswer r = some "A")
    ∧ (∀ s, lookupField r "correct_answer" = some (Val.str s) → s ∈ answerLetters →
        selectedAnswer r = some s)
    ∧ (∀ v, lookupField r "correct_answer" = some v →
        (∀ s ∈ answerLetters, Val.str s ≠ v) →
        answerIndex r = none ∧ selectedAnswer r = none) := by
  refine ⟨fun h => ?_, fun s h hs => ?_, fun v h hv => ?_⟩
  · simp [selectedAnswer, answerIndex, h, listIndex, answerLetters]
  · rcases (show s = "A" ∨ s = "B" ∨ s = "C" ∨ s = "D" by
        simpa [answerLetters] using hs) with rfl | rfl | rfl | rfl <;>
      simp [selectedAnswer, answerIndex, h, listIndex, answerLetters]
  · have hA := hv "A" (by simp [answerLetters])
    have hB := hv "B" (by simp [answerLetters])
    have hC := hv "C" (by simp [answerLetters])
    have hD := hv "D" (by simp [answerLetters])
    constructor <;>
      simp [selectedAnswer, answerIndex, h, listIndex, answerLetters, hA, hB, hC, hD]

/-- A parsed JSON document as this program distinguishes them: an array of
records, an object, a string, a number, a boolean, or `null` (the data files
here are flat, so array elements are records and object fields are flat
values). -/
inductive JsonDoc where
  | arr (records : List Record)
  | obj (fields : Record)
  | str (s : String)
  | num (n : Int)
  | bool (b : Bool)
  | null
deriving DecidableEq, Repr

/-- Python truthiness of a parsed JSON value (`if not questions` /
`if not data`). -/
def JsonDoc.isFalsy : JsonDoc → Bool
  | .arr records => records.isEmpty
  | .obj fields => fields.isEmpty
  | .str s => s.isEmpty
  | .num n => n == 0
  | .bool b => !b
  | .null => true

/-- The state of the local `data.json` file: `none` = file absent,
`some none` = file present but not parseable as JSON, `some (some d)` =
file parses to the document `d`. -/
abbrev LocalFile : Type := Option (Option JsonDoc)

/-- `_load_from_json` (`main.py` lines 46–51): return the parsed file
content; `FileNotFoundError` is caught and yields `[]`; a parse failure
(`json.JSONDecodeError`) is NOT caught and propagates. -/
def loadFromJson : LocalFile → Except String JsonDoc
  | none => .ok (.arr [])
  | some none => .error "json.JSONDecodeError"
  | some (some d) => .ok d

/-- Python `int(v)` as applied to the values of this program
(`int` passes through, a string parses as a decimal integer ignoring
surrounding whitespace, `None` raises). -/
def pyInt : Val → Option Int
  | .int n => some n
  | .str s => s.trim.toInt?
  | .null => none

/-- The chapter coercion after load (`main.py` lines 115–120 and
`json_to_csv.py` lines 61–66): when the record has a `Chapter` key, attempt
`int(...)`; any failure is swallowed and the value left unchanged. -/
def coerceChapter (r : Record) : Record :=
  match lookupField r "Chapter" with
  | some v =>
    match pyInt v with
    | some n => setField r "Chapter" (Val.int n)
    | none => r
  | none => r

/-- The remote-read normalization (`main.py` lines 121–124): every field
whose value is an empty or whitespace-only string becomes `None`. -/
def blankToNull (r : Record) : Record :=
  r.map (fun kv =>
    match kv.2 with
    | Val.str s => if s.trim = "" then (kv.1, Val.null) else kv
    | _ => kv)

/-- The per-record normalization `load_data` applies to rows fetched from the
remote sheet (`main.py` lines 114–124): chapter coercion, then
blank-to-`None`. -/
def normalizeRecord (r : Record) : Record := blankToNull (coerceChapter r)

/-- The outcome of the remote (Google-Sheets) fetch attempt: the fetched
rows, or any raised exception (auth, network, bad store id, malformed
response). -/
inductive RemoteOutcome where
  | ok (records : List Record)
  | err (msg : String)
deriving DecidableEq, Repr

/-- `load_data` (`main.py` lines 59–134): when remote configuration (store
id + credentials) is fully present, try the sheet — normalizing rows on
success, and on ANY exception warning and falling back to
`_load_from_json()`; without full remote configuration, go straight to
`_load_from_json()`. -/
def load_data (remoteConfigured : Bool) (remote : RemoteOutcome)
    (file : LocalFile) : Except String JsonDoc :=
  if remoteConfigured then
    match remote with
    | .ok records => .ok (.arr (records.map normalizeRecord))
    | .err _ => loadFromJson file
  else loadFromJson file

/-- C3: a failing remote store (unreachable, misconfigured, bad credentials)
makes `load()` return exactly what `load()` returns with no remote
configuration at all — the pure local-file fallback, which yields the empty
collection when the local file is absent and the parsed content (no raise)
whenever the local file is absent or well-formed. -/
theorem load_data_fallback (e : String) (remote : RemoteOutcome)
    (file : LocalFile) :
    load_data true (.err e) file = load_data false remote file
    ∧ load_data true (.err e) none = .ok (.arr [])
    ∧ load_data false remote none = .ok (.arr [])
    ∧ (file = none → load_data true (.err e) file = .ok (.arr []))
    ∧ (∀ d, file = some (some d) → load_data true (.err e) file = .ok d) := by
  refine ⟨rfl, rfl, rfl, ?_, ?_⟩
  · rintro rfl
    rfl
  · rintro d rfl
    rfl

/-- `json_to_csv.main` (`json_to_csv.py` lines 46–69): refuse (print and
return, producing no CSV) unless the parsed content is a JSON array; on an
array, coerce chapters and export. -/
def csvMain (doc : JsonDoc) : Option (List String × List (List String)) :=
  match doc with
  | .arr records => some (write_csv (records.map coerceChapter))
  | _ => none

/-- `[q['Chapter'] for q in questions]` (`main.py` line 242): the chapter of
every record; a record without the key raises `KeyError`. -/
def extractChapters (qs : List Record) : Except String (List Val) :=
  qs.mapM (fun q =>
    match lookupField q "Chapter" with
    | some v => Except.ok v
    | none => Except.error "KeyError: Chapter")

/-- The start of `main` (`main.py` lines 235–242) on the loaded document:
a falsy value warns "No questions found" and returns; iterating a non-list
to read `q['Chapter']` raises `TypeError`; only a non-empty array reaches a
review session (with its chapter values). -/
def mainFlow (doc : JsonDoc) : Except String (List Val) :=
  if doc.isFalsy then .error "No questions found in data.json"
  else
    match doc with
    | .arr qs => extractChapters qs
    | _ => .error "TypeError"

/-- C10: when the local store's content is not a JSON array, the exporter's
`main` refuses to export, and the review app's `main` never reaches a review
session (it warns on a falsy value or raises on a truthy non-list) — neither
program continues as if a collection had been loaded. -/
theorem nonArray_rejected (doc : JsonDoc) (h : ∀ records, doc ≠ JsonDoc.arr records) :
    csvMain doc = none ∧ ∀ chs, mainFlow doc ≠ Except.ok chs := by
  cases doc with
  | arr records => exact absurd rfl (h records)
  | obj fields =>
      refine ⟨rfl, fun chs hc => ?_⟩
      unfold mainFlow at hc
      split at hc
      · cases hc
      · cases hc
  | str s =>
      refine ⟨rfl, fun chs hc => ?_⟩
      unfold mainFlow at hc
      split at hc
      · cases hc
      · cases hc
  | num n =>
      refine ⟨rfl, fun chs hc => ?_⟩
      unfold mainFlow at hc
      split at hc
      · cases hc
      · cases hc
  | bool b =>
      refine ⟨rfl, fun chs hc => ?_⟩
      unfold mainFlow at hc
      split at hc
      · cases hc
      · cases hc
  | null =>
      refine ⟨rfl, fun chs hc => ?_⟩
      unfold mainFlow at hc
      split at hc
      · cases hc
      · cases hc

/-- C10 witness: the rejection evaluated at a concrete non-array document
(a JSON object). -/
theorem nonArray_rejected_witness :
    csvMain (JsonDoc.obj [("a", Val.int 1)]) = none
    ∧ ∀ chs, mainFlow (JsonDoc.obj [("a", Val.int 1)]) ≠ Except.ok chs :=
  nonArray_rejected (JsonDoc.obj [("a", Val.int 1)])
    (fun records hc => by cases hc)
